import Mathlib

/-
Shallow embedding of the TLA+ completion provider
(src/completions/tlaCompletions.ts) of the vscode-tlaplus extension:
the keyword/operator/module catalogs, the lexical prefix classifiers,
item assembly in provideCompletionItems, and the two-stage resolution
protocol (resolveCompletionItem / resolveOperatorCompletion).

Strings are modelled as sequences of characters and editor columns as
character indices.  The JavaScript regex character classes are modelled
on their ASCII members: the word class as [A-Za-z0-9_], the whitespace
class by its ASCII members, and the digit class as [0-9].  The document,
cursor and symbol table are external collaborators of the provider:
the line prefix returned by getPrevText, the cursor position, the value
of docInfo.isPlusCalAt(position) and the document symbol list are taken
as inputs.
-/

namespace TlaCompletions

/-- JS regex word character class, ASCII: [A-Za-z0-9_]. -/
def isWordChar (c : Char) : Bool := c.isAlphanum || c == '_'

/-- JS regex whitespace character class, restricted to its ASCII members. -/
def isJsSpace (c : Char) : Bool :=
  c == ' ' || c == '\t' || c == '\n' || c == '\r' || c == '\x0b' || c == '\x0c'

/-- Character class of the proof-step regex between the step number and the
trailing whitespace. -/
def isStepLabelChar (c : Char) : Bool :=
  c == '<' || c == '>' || c.isDigit || c == '.' || c.isAlpha

/-- The completion-item kinds used by the provider (a subset of the
editor's CompletionItemKind enumeration). -/
inductive CompletionItemKind where
  | Keyword | Operator | Constant | Module | Field | Variable
  | Function | Method | Text
deriving DecidableEq

/-- The editor's SymbolKind enumeration, as received from the document
symbol provider. -/
inductive SymbolKind where
  | File | Module | Namespace | Package | Class | Method | Property | Field
  | Constructor | Enum | Interface | Function | Variable | Constant | String
  | Number | Boolean | Array | Object | Key | Null | EnumMember | Struct
  | Event | Operator | TypeParameter
deriving DecidableEq

/-- An editor position: zero-based line and character column. -/
structure Position where
  line : Nat
  character : Nat
deriving DecidableEq

/-- An editor range between two positions. -/
structure VsRange where
  start : Position
  stop : Position
deriving DecidableEq

/-- A completion item: label and kind are set at list time; insertText is
set lazily by the resolver; range is the optional explicit replacement
range. -/
structure CompletionItem where
  label : String
  kind : CompletionItemKind
  insertText : Option String := none
  range : Option VsRange := none
deriving DecidableEq

/-- A document symbol record as supplied by the external symbol provider. -/
structure SymbolRecord where
  name : String
  kind : SymbolKind
deriving DecidableEq

/-- The result list of a completion request. -/
structure CompletionList where
  items : List CompletionItem
  isIncomplete : Bool
deriving DecidableEq

def TLA_OPERATORS : List String := [
  "land", "lor", "implies",
  "lnot", "equiv", "triangleq",
  "in", "notin", "ne",
  "ll", "gg", "[]",
  "leq", "geq", "<>",
  "~>", "prec", "succ",
  "-+->", "preceq", "succeq",
  "div", "subseteq", "supseteq",
  "cdot", "subset", "supset",
  "o", "sqsubset", "sqsupset",
  "bullet", "sqsubseteq", "sqsupseteq",
  "star", "vdash", "dashv",
  "bigcirc", "models", "vDash",
  "sim", "maps", "leftarrow",
  "simeq", "cap", "cup",
  "asymp", "sqcap", "sqcup",
  "approx", "oplus", "uplus",
  "cong", "ominus", "X",
  "doteq", "odot", "wr",
  "otimes", "propto", "oslash",
  "E", "A", "EE", "AA"]

/-- The operator-name to Unicode glyph map, in insertion order.  All keys
are distinct, so first-match lookup coincides with the JS Map semantics. -/
def TLA_UNICODE_OPERATORS : List (String × String) := [
  ("land", "∧"), ("lor", "∨"), ("implies", "⇒"),
  ("lnot", "¬"), ("equiv", "≡"), ("triangleq", "≜"),
  ("in", "∈"), ("notin", "∉"), ("ne", "≠"),
  ("ll", "≪"), ("gg", "≫"), ("[]", "□"),
  ("leq", "≤"), ("geq", "≥"), ("<>", "◊"),
  ("~>", "↝"), ("prec", "≺"), ("succ", "≻"),
  ("-+->", "⇸"), ("preceq", "⪯"), ("succeq", "⪰"),
  ("div", "÷"), ("subseteq", "⊆"), ("supseteq", "⊇"),
  ("cdot", "·"), ("subset", "⊂"), ("supset", "⊃"),
  ("o", "○"), ("sqsubset", "⊏"), ("sqsupset", "⊐"),
  ("bullet", "•"), ("sqsubseteq", "⊑"), ("sqsupseteq", "⊒"),
  ("star", "⋆"), ("vdash", "⊢"), ("dashv", "⊣"),
  ("bigcirc", "◯"), ("models", "⊨"), ("vDash", "=|"),
  ("sim", "∼"), ("maps", "→"), ("leftarrow", "←"),
  ("simeq", "≃"), ("cap", "∩"), ("cup", "∪"),
  ("asymp", "≍"), ("sqcap", "⊓"), ("sqcup", "⊔"),
  ("approx", "≈"), ("oplus", "⊕"), ("uplus", "⊎"),
  ("cong", "≅"), ("ominus", "⊖"), ("X", "×"),
  ("doteq", "≐"), ("odot", "⊙"), ("wr", "≀"),
  ("otimes", "⊗"), ("propto", "∝"), ("oslash", "⊘"),
  ("E", "∃"), ("A", "∀"), ("EE", "∃"), ("AA", "∀"),
  ("times", "×"), ("circ", "∘"), ("intersect", "∩"), ("union", "∪")]

/-- Map lookup: first entry with a matching key. -/
def unicodeLookup (name : String) : Option String :=
  (TLA_UNICODE_OPERATORS.find? (fun p => p.1 == name)).map (fun p => p.2)

def TLA_STARTING_KEYWORDS : List String := [
  "EXTENDS", "VARIABLE", "VARIABLES", "CONSTANT", "CONSTANTS", "ASSUME",
  "ASSUMPTION", "AXIOM", "THEOREM", "PROOF", "LEMMA", "PROPOSITION",
  "COROLLARY", "RECURSIVE"]

def TLA_PROOF_STARTING_KEYWORDS : List String := [
  "DEFINE", "QED", "HIDE", "SUFFICES", "PICK", "HAVE", "TAKE", "WITNESS"]

def TLA_OTHER_KEYWORDS : List String := [
  "LET", "IN", "EXCEPT", "ENABLED", "UNCHANGED", "LAMBDA", "DOMAIN",
  "CHOOSE", "LOCAL", "INSTANCE", "WITH", "SUBSET", "UNION", "SF_", "WF_",
  "USE", "BY", "DEF", "DEFS", "PROVE", "OBVIOUS", "NEW", "ACTION",
  "OMITTED", "ONLY", "STATE", "TEMPORAL",
  "IF", "THEN", "ELSE", "CASE", "OTHER",
  "BOOLEAN"]

def TLA_CONSTANTS : List String := ["TRUE", "FALSE"]

def TLA_STD_MODULES : List String := [
  "Bags", "FiniteSets", "Integers", "Naturals", "Randomization", "Reals",
  "RealTime", "Sequences", "TLC"]

/-- Completion item with only label and kind set. -/
def mkCompletionItem (label : String) (kind : CompletionItemKind) : CompletionItem :=
  { label := label, kind := kind }

def TLA_STARTING_KEYWORD_ITEMS : List CompletionItem :=
  TLA_STARTING_KEYWORDS.map (fun w => mkCompletionItem w .Keyword)

def TLA_PROOF_STARTING_KEYWORD_ITEMS : List CompletionItem :=
  TLA_PROOF_STARTING_KEYWORDS.map (fun w => mkCompletionItem w .Keyword)

def TLA_OTHER_KEYWORD_ITEMS : List CompletionItem :=
  TLA_OTHER_KEYWORDS.map (fun w => mkCompletionItem w .Keyword)

def TLA_CONST_ITEMS : List CompletionItem :=
  TLA_CONSTANTS.map (fun w => mkCompletionItem w .Constant)

def TLA_OPERATOR_ITEMS : List CompletionItem :=
  TLA_OPERATORS.map (fun w => mkCompletionItem ("\\" ++ w) .Operator)

def TLA_INNER_ITEMS : List CompletionItem :=
  TLA_OTHER_KEYWORD_ITEMS ++ TLA_CONST_ITEMS

def TLA_STD_MODULE_ITEMS : List CompletionItem :=
  TLA_STD_MODULES.map (fun m => mkCompletionItem m .Module)

/-- JS label.substring(1): the label with its first character removed. -/
def bareOperatorName (label : String) : String := String.mk (label.data.drop 1)

/-- resolveOperatorCompletion: strips the leading backslash from the label,
looks the bare name up in the glyph map, and sets insertText to the glyph
plus a trailing space when the preference is on and a (non-empty) glyph
exists, and to the backslash-escaped name plus a trailing space otherwise. -/
def resolveOperatorCompletion (item : CompletionItem) (useUnicode : Bool) :
    CompletionItem :=
  let operatorName := bareOperatorName item.label
  let unicodeSymbol := unicodeLookup operatorName
  let text := (if useUnicode then unicodeSymbol.getD ("\\" ++ operatorName)
               else "\\" ++ operatorName) ++ " "
  { item with insertText := some text }

/-- resolveCompletionItem: keyword items get label plus a trailing space,
operator items are delegated to resolveOperatorCompletion with the
process-wide Unicode preference, all other kinds pass through unchanged. -/
def resolveCompletionItem (item : CompletionItem)
    (enableUnicodeAutocomplete : Bool) : CompletionItem :=
  match item.kind with
  | .Keyword => { item with insertText := some (item.label ++ " ") }
  | .Operator => resolveOperatorCompletion item enableUnicodeAutocomplete
  | _ => item

/-- mapKind: the fixed symbol-kind to completion-kind table, with Text as
the fallback for every unlisted kind. -/
def mapKind (symbolKind : SymbolKind) : CompletionItemKind :=
  match symbolKind with
  | .Field => .Field
  | .Variable => .Variable
  | .Function => .Function
  | .Method => .Method
  | .Namespace => .Module
  | .Module => .Module
  | .Constant => .Constant
  | _ => .Text

/-- The regex test of /^.*(?<!\/)\\\w*$/ : the prefix ends in a backslash
followed by word characters only, and that backslash is not immediately
preceded by a slash.  Scanning from the right: drop the maximal word-char
suffix; a match requires the next character to be the backslash (unique
candidate, since a backslash is not a word character) and the character
before it, if any, to differ from the slash. -/
def isOperatorTest (s : String) : Bool :=
  let r := s.data.reverse.dropWhile isWordChar
  (r.head? == some '\\') && !(r.tail.head? == some '/')

/-- Length of the match of /\\(\w*)$/ when it exists: one backslash plus
the maximal word-character suffix. -/
def lastOpMatchLen (s : String) : Option Nat :=
  if (s.data.reverse.dropWhile isWordChar).head? == some '\\' then
    some ((s.data.reverse.takeWhile isWordChar).length + 1)
  else none

/-- The regex test of /^\s*<\d+>[<>\d.a-zA-Z]*\s+[a-zA-Z]*$/ (proof-step
prefix), via the deterministic maximal-munch decomposition the regex is
equivalent to. -/
def isProofStep (s : String) : Bool :=
  let r0 := s.data.dropWhile isJsSpace
  (r0.head? == some '<') &&
    (let rest := r0.tail
     !(rest.takeWhile Char.isDigit).isEmpty &&
       (let r1 := rest.dropWhile Char.isDigit
        (r1.head? == some '>') &&
          (let r4 := r1.tail.dropWhile isStepLabelChar
           !(r4.takeWhile isJsSpace).isEmpty &&
             (r4.dropWhile isJsSpace).all Char.isAlpha)))

/-- The regex test of /^\s*[a-zA-Z]*$/ (new-line prefix): leading
whitespace followed only by letters. -/
def isNewLine (s : String) : Bool :=
  (s.data.dropWhile isJsSpace).all Char.isAlpha

/-- The symbol bridge: one completion item per document symbol, in order. -/
def symbolCompletionItems (symbols : List SymbolRecord) : List CompletionItem :=
  symbols.map (fun s => mkCompletionItem s.name (mapKind s.kind))

/-- The fresh operator items built in the operator branch, each carrying
the explicit replacement range from the backslash column to the cursor. -/
def operatorItemsWithRange (pos : Position) (backslashCol : Nat) :
    List CompletionItem :=
  TLA_OPERATORS.map (fun op =>
    { label := "\\" ++ op, kind := .Operator, insertText := none,
      range := some ⟨⟨pos.line, backslashCol⟩, pos⟩ })

/-- The general bucket: inner items (general keywords then constants) and
symbol items, escalated with proof-starting or starting keywords appended
at the end when the cursor is outside a PlusCal block and the prefix
matches the proof-step or new-line pattern. -/
def generalItems (prevText : String) (isPlusCalAtPos : Bool)
    (symbols : List SymbolRecord) : List CompletionItem :=
  if isPlusCalAtPos then TLA_INNER_ITEMS ++ symbolCompletionItems symbols
  else if isProofStep prevText then
    TLA_INNER_ITEMS ++ symbolCompletionItems symbols ++
      TLA_PROOF_STARTING_KEYWORD_ITEMS
  else if isNewLine prevText then
    TLA_INNER_ITEMS ++ symbolCompletionItems symbols ++
      TLA_STARTING_KEYWORD_ITEMS
  else TLA_INNER_ITEMS ++ symbolCompletionItems symbols

/-- provideCompletionItems.  Inputs: prevText is the line prefix up to the
cursor (getPrevText), pos the cursor position, isPlusCalAtPos the value of
docInfo.isPlusCalAt(position), symbols the document symbols.  The result
is an Option to record that the provider always answers with an explicit
list rather than a missing provider response. -/
def provideCompletionItems (prevText : String) (pos : Position)
    (isPlusCalAtPos : Bool) (symbols : List SymbolRecord) :
    Option CompletionList :=
  if "EXTENDS".data.isPrefixOf prevText.data then
    some ⟨TLA_STD_MODULE_ITEMS, false⟩
  else if "CONSTANT".data.isPrefixOf prevText.data ||
      "RECURSIVE".data.isPrefixOf prevText.data then
    some ⟨[], false⟩
  else if isOperatorTest prevText then
    match lastOpMatchLen prevText with
    | some n => some ⟨operatorItemsWithRange pos (prevText.length - n), false⟩
    | none => some ⟨TLA_OPERATOR_ITEMS, false⟩
  else
    some ⟨generalItems prevText isPlusCalAtPos symbols, false⟩

/-- Exactly one trailing space: last character is a space and the one
before it, if any, is not. -/
def endsWithSingleSpace (t : String) : Bool :=
  (t.data.reverse.head? == some ' ') && !(t.data.reverse.tail.head? == some ' ')

/-- Modelled from the spec (section 4.4), for refinement comparison only:
the assembly order the spec prescribes for an escalated general bucket,
keyword class first, then general keywords, then constants, then symbols. -/
def specOrderedEscalatedItems (kwClass : List CompletionItem)
    (symbolItems : List CompletionItem) : List CompletionItem :=
  kwClass ++ TLA_OTHER_KEYWORD_ITEMS ++ TLA_CONST_ITEMS ++ symbolItems

/-- Dropping a predicate-satisfying block skips past it. -/
theorem dropWhile_append_all {p : Char → Bool} {l₁ l₂ : List Char}
    (h : ∀ c ∈ l₁, p c = true) :
    (l₁ ++ l₂).dropWhile p = l₂.dropWhile p := by
  induction l₁ with
  | nil => simp
  | cons c t ih =>
      rw [List.cons_append, List.dropWhile_cons_of_pos (h c (List.mem_cons_self c t))]
      exact ih (fun x hx => h x (List.mem_cons_of_mem c hx))

/-- Taking while the predicate holds swallows a satisfying block whole. -/
theorem takeWhile_append_all {p : Char → Bool} {l₁ l₂ : List Char}
    (h : ∀ c ∈ l₁, p c = true) :
    (l₁ ++ l₂).takeWhile p = l₁ ++ l₂.takeWhile p := by
  induction l₁ with
  | nil => simp
  | cons c t ih =>
      rw [List.cons_append, List.takeWhile_cons_of_pos (h c (List.mem_cons_self c t)),
        ih (fun x hx => h x (List.mem_cons_of_mem c hx)), List.cons_append]

/-- A list whose optional head is known is a cons of it. -/
theorem eq_cons_of_head? {α : Type} {l : List α} {a : α} (h : l.head? = some a) :
    l = a :: l.tail := by
  cases l with
  | nil => cases h
  | cons b t =>
      simp only [List.head?_cons, Option.some.injEq] at h
      rw [h]
      rfl

/-- A non-empty prefix pins down the head of the longer list. -/
theorem head?_of_isPrefixOf {p s : List Char} (h : p.isPrefixOf s = true)
    (hne : p ≠ []) : s.head? = p.head? := by
  rcases List.isPrefixOf_iff_prefix.mp h with ⟨r, hr⟩
  cases p with
  | nil => exact absurd rfl hne
  | cons c t => rw [← hr]; rfl

/-- Decomposing the operator-pattern prefix: given the unique backslash
split, the classifier accepts and the match length is the word suffix plus
the backslash. -/
theorem operator_decomp {s : String} {a w : List Char}
    (hs : s.data = a ++ '\\' :: w)
    (hw : ∀ c ∈ w, isWordChar c = true)
    (hsl : a.getLast? ≠ some '/') :
    isOperatorTest s = true ∧ lastOpMatchLen s = some (w.length + 1) := by
  have hrev : s.data.reverse = w.reverse ++ '\\' :: a.reverse := by
    rw [hs]
    simp
  have hdw : s.data.reverse.dropWhile isWordChar = '\\' :: a.reverse := by
    rw [hrev, dropWhile_append_all (fun c hc => hw c (List.mem_reverse.mp hc)),
      List.dropWhile_cons_of_neg (by decide)]
  have htw : s.data.reverse.takeWhile isWordChar = w.reverse := by
    rw [hrev, takeWhile_append_all (fun c hc => hw c (List.mem_reverse.mp hc)),
      List.takeWhile_cons_of_neg (by decide), List.append_nil]
  constructor
  · simp only [isOperatorTest, hdw, List.head?_cons, List.tail_cons, beq_self_eq_true,
      Bool.true_and, Bool.not_eq_true', beq_eq_false_iff_ne, ne_eq, List.head?_reverse]
    exact hsl
  · simp only [lastOpMatchLen, hdw, htw, List.head?_cons, beq_self_eq_true, if_true,
      List.length_reverse]

/-- The operator classifier only fires on prefixes containing a backslash. -/
theorem isOperatorTest_backslash {s : String} (h : isOperatorTest s = true) :
    '\\' ∈ s.data := by
  simp only [isOperatorTest, Bool.and_eq_true, beq_iff_eq] at h
  have hmem : '\\' ∈ s.data.reverse.dropWhile isWordChar := by
    rw [eq_cons_of_head? h.1]
    exact List.mem_cons_self _ _
  exact List.mem_reverse.mp ((List.dropWhile_sublist _).mem hmem)

/-- A proof-step prefix starts with whitespace or an opening angle. -/
theorem isProofStep_head {s : String} (h : isProofStep s = true) :
    ∃ c, s.data.head? = some c ∧ (c = '<' ∨ isJsSpace c = true) := by
  have h0 : (s.data.dropWhile isJsSpace).head? = some '<' := by
    simp only [isProofStep, Bool.and_eq_true, beq_iff_eq] at h
    exact h.1
  cases hd : s.data with
  | nil => rw [hd] at h0; simp at h0
  | cons c t =>
      by_cases hc : isJsSpace c = true
      · exact ⟨c, by simp, Or.inr hc⟩
      · have he : s.data.dropWhile isJsSpace = c :: t := by
          rw [hd]
          exact List.dropWhile_cons_of_neg (by simpa using hc)
        rw [he] at h0
        simp only [List.head?_cons, Option.some.injEq] at h0
        exact ⟨c, by simp [hd], Or.inl h0⟩

/-- No block-starting declaration keyword can begin a proof-step prefix. -/
theorem isProofStep_no_kw_starts {s : String} (h : isProofStep s = true) :
    "EXTENDS".data.isPrefixOf s.data = false ∧
    "CONSTANT".data.isPrefixOf s.data = false ∧
    "RECURSIVE".data.isPrefixOf s.data = false := by
  obtain ⟨c, hc, hor⟩ := isProofStep_head h
  have hne : ∀ d : Char, isJsSpace d = false → d ≠ '<' →
      s.data.head? ≠ some d := by
    intro d hd hlt heq
    rw [hc] at heq
    injection heq with heq
    subst heq
    rcases hor with h1 | h1
    · exact hlt h1
    · rw [h1] at hd; cases hd
  refine ⟨?_, ?_, ?_⟩
  · cases hE : "EXTENDS".data.isPrefixOf s.data
    · rfl
    · have h2 := head?_of_isPrefixOf hE (by decide)
      exact absurd (by rw [h2]; rfl) (hne 'E' (by decide) (by decide))
  · cases hC : "CONSTANT".data.isPrefixOf s.data
    · rfl
    · have h2 := head?_of_isPrefixOf hC (by decide)
      exact absurd (by rw [h2]; rfl) (hne 'C' (by decide) (by decide))
  · cases hR : "RECURSIVE".data.isPrefixOf s.data
    · rfl
    · have h2 := head?_of_isPrefixOf hR (by decide)
      exact absurd (by rw [h2]; rfl) (hne 'R' (by decide) (by decide))

/-- A proof-step prefix contains no backslash at all. -/
theorem isProofStep_no_backslash {s : String} (h : isProofStep s = true) :
    '\\' ∉ s.data := by
  simp only [isProofStep, Bool.and_eq_true, beq_iff_eq, Bool.not_eq_true',
    List.all_eq_true] at h
  obtain ⟨h1, _, h3, _, h5⟩ := h
  intro hmem
  have e0 : s.data = s.data.takeWhile isJsSpace ++
      ('<' :: (s.data.dropWhile isJsSpace).tail) := by
    conv_lhs => rw [← List.takeWhile_append_dropWhile (p := isJsSpace) (l := s.data)]
    rw [← eq_cons_of_head? h1]
  rw [e0] at hmem
  rcases List.mem_append.mp hmem with hm0 | hm0
  · exact absurd (List.mem_takeWhile_imp hm0) (by decide)
  rcases List.mem_cons.mp hm0 with hx | hm1
  · exact absurd hx (by decide)
  have e1 : (s.data.dropWhile isJsSpace).tail =
      (s.data.dropWhile isJsSpace).tail.takeWhile Char.isDigit ++
        ('>' :: ((s.data.dropWhile isJsSpace).tail.dropWhile Char.isDigit).tail) := by
    conv_lhs => rw [← List.takeWhile_append_dropWhile (p := Char.isDigit)
      (l := (s.data.dropWhile isJsSpace).tail)]
    rw [← eq_cons_of_head? h3]
  rw [e1] at hm1
  rcases List.mem_append.mp hm1 with hm2 | hm2
  · exact absurd (List.mem_takeWhile_imp hm2) (by decide)
  rcases List.mem_cons.mp hm2 with hx | hm3
  · exact absurd hx (by decide)
  have e2 : ((s.data.dropWhile isJsSpace).tail.dropWhile Char.isDigit).tail =
      ((s.data.dropWhile isJsSpace).tail.dropWhile Char.isDigit).tail.takeWhile
          isStepLabelChar ++
        (((s.data.dropWhile isJsSpace).tail.dropWhile
            Char.isDigit).tail.dropWhile isStepLabelChar) :=
    (List.takeWhile_append_dropWhile (p := isStepLabelChar) _).symm
  rw [e2] at hm3
  rcases List.mem_append.mp hm3 with hm4 | hm4
  · exact absurd (List.mem_takeWhile_imp hm4) (by decide)
  have e3 : (((s.data.dropWhile isJsSpace).tail.dropWhile
      Char.isDigit).tail.dropWhile isStepLabelChar) =
      (((s.data.dropWhile isJsSpace).tail.dropWhile
          Char.isDigit).tail.dropWhile isStepLabelChar).takeWhile isJsSpace ++
        (((s.data.dropWhile isJsSpace).tail.dropWhile
            Char.isDigit).tail.dropWhile isStepLabelChar).dropWhile isJsSpace :=
    (List.takeWhile_append_dropWhile (p := isJsSpace) _).symm
  rw [e3] at hm4
  rcases List.mem_append.mp hm4 with hm5 | hm5
  · exact absurd (List.mem_takeWhile_imp hm5) (by decide)
  · exact absurd (h5 _ hm5) (by decide)

/-- A new-line prefix (whitespace then letters) contains no backslash. -/
theorem isNewLine_no_backslash {s : String} (h : isNewLine s = true) :
    '\\' ∉ s.data := by
  simp only [isNewLine, List.all_eq_true] at h
  intro hmem
  have e0 : s.data = s.data.takeWhile isJsSpace ++ s.data.dropWhile isJsSpace :=
    (List.takeWhile_append_dropWhile (p := isJsSpace) _).symm
  rw [e0] at hmem
  rcases List.mem_append.mp hmem with hm | hm
  · exact absurd (List.mem_takeWhile_imp hm) (by decide)
  · exact absurd (h _ hm) (by decide)

/-- When none of the three terminal rules fires, the provider answers with
the general bucket. -/
theorem provide_general {s : String} {pos : Position} {pc : Bool}
    {symbols : List SymbolRecord}
    (hE : "EXTENDS".data.isPrefixOf s.data = false)
    (hC : "CONSTANT".data.isPrefixOf s.data = false)
    (hR : "RECURSIVE".data.isPrefixOf s.data = false)
    (hOp : isOperatorTest s = false) :
    provideCompletionItems s pos pc symbols =
      some ⟨generalItems s pc symbols, false⟩ := by
  simp [provideCompletionItems, hE, hC, hR, hOp]

/-- Symbol-bridge items never carry the Keyword kind. -/
theorem symbol_item_kind {symbols : List SymbolRecord} :
    ∀ it ∈ symbolCompletionItems symbols, it.kind ≠ CompletionItemKind.Keyword := by
  intro it hit
  simp only [symbolCompletionItems, List.mem_map] at hit
  obtain ⟨srec, _, rfl⟩ := hit
  cases srec.kind <;> simp [mkCompletionItem, mapKind]

/-- C1 counterexample: the prefix "EXTENDS \in" ends in a backslash
followed by word characters and the backslash is not preceded by a slash,
yet the provider answers with the standard-module items, none of which is
an operator-kind item and none of which carries a replacement range, so
the claim fails as universally stated. -/
theorem C1_counterexample :
    isOperatorTest "EXTENDS \\in" = true ∧
    provideCompletionItems "EXTENDS \\in" ⟨0, 11⟩ false [] =
      some ⟨TLA_STD_MODULE_ITEMS, false⟩ ∧
    (∀ it ∈ TLA_STD_MODULE_ITEMS,
      it.kind ≠ CompletionItemKind.Operator ∧ it.range = none) := by
  refine ⟨by decide, by decide, by decide⟩

/-- C1 (amended): for every line prefix that ends in the escape marker
followed by zero or more word characters, whose marker is not immediately
preceded by a slash, and that does not start with EXTENDS, CONSTANT or
RECURSIVE, provideCompletionItems returns exactly one item per catalog
operator, each of operator kind, each carrying the explicit replacement
range that starts at the column of the last escape marker of the prefix
(the marker of the decomposition, and no later backslash exists) and ends
at the cursor position. -/
theorem C1_operator_items_range (s : String) (a w : List Char)
    (pos : Position) (pc : Bool) (symbols : List SymbolRecord)
    (hs : s.data = a ++ '\\' :: w)
    (hw : ∀ c ∈ w, isWordChar c = true)
    (hsl : a.getLast? ≠ some '/')
    (hE : "EXTENDS".data.isPrefixOf s.data = false)
    (hC : "CONSTANT".data.isPrefixOf s.data = false)
    (hR : "RECURSIVE".data.isPrefixOf s.data = false) :
    provideCompletionItems s pos pc symbols =
      some ⟨operatorItemsWithRange pos a.length, false⟩ ∧
    (∀ it ∈ operatorItemsWithRange pos a.length,
        it.kind = CompletionItemKind.Operator ∧
        it.range = some ⟨⟨pos.line, a.length⟩, pos⟩) ∧
    (operatorItemsWithRange pos a.length).length = TLA_OPERATORS.length ∧
    '\\' ∉ w := by
  obtain ⟨hop, hlen⟩ := operator_decomp hs hw hsl
  have hslen : s.length - (w.length + 1) = a.length := by
    have hl : s.length = a.length + w.length + 1 := by
      show s.data.length = _
      rw [hs]
      simp [List.length_append]
      omega
    omega
  refine ⟨?_, ?_, ?_, ?_⟩
  · simp [provideCompletionItems, hE, hC, hR, hop, hlen, hslen]
  · intro it hit
    simp only [operatorItemsWithRange, List.mem_map] at hit
    obtain ⟨op, _, rfl⟩ := hit
    exact ⟨rfl, rfl⟩
  · simp [operatorItemsWithRange]
  · intro hmem
    have := hw '\\' hmem
    simp [isWordChar] at this

/-- C1 witness: the concrete prefix is a backslash followed by one letter,
with the cursor at column 2. -/
theorem C1_witness :
    ("\\e".data = [] ++ '\\' :: ['e']) ∧
    (∀ c ∈ ['e'], isWordChar c = true) ∧
    ([] : List Char).getLast? ≠ some '/' ∧
    "EXTENDS".data.isPrefixOf "\\e".data = false ∧
    "CONSTANT".data.isPrefixOf "\\e".data = false ∧
    "RECURSIVE".data.isPrefixOf "\\e".data = false ∧
    (provideCompletionItems "\\e" ⟨0, 2⟩ false [] =
        some ⟨operatorItemsWithRange ⟨0, 2⟩ (List.length ([] : List Char)), false⟩ ∧
      (∀ it ∈ operatorItemsWithRange ⟨0, 2⟩ (List.length ([] : List Char)),
          it.kind = CompletionItemKind.Operator ∧
          it.range = some ⟨⟨(0 : Nat), List.length ([] : List Char)⟩, ⟨0, 2⟩⟩) ∧
      (operatorItemsWithRange ⟨0, 2⟩ (List.length ([] : List Char))).length =
        TLA_OPERATORS.length ∧
      '\\' ∉ ['e']) :=
  ⟨by decide, by decide, by decide, by decide, by decide, by decide,
    C1_operator_items_range "\\e" [] ['e'] ⟨0, 2⟩ false []
      (by decide) (by decide) (by decide) (by decide) (by decide) (by decide)⟩

/-- C3: resolveOperatorCompletion yields the Unicode glyph plus one
trailing space exactly when the preference is on and the bare operator
name has a glyph mapping, and the backslash-escaped name plus one
trailing space otherwise; in particular for the labels of the spec's
three probes, including that the fallback for an unmapped name is
independent of the preference. -/
theorem C3_unicode_resolution_policy :
    (∀ (item : CompletionItem) (u : Bool),
      (u = true ∧ ∃ g, unicodeLookup (bareOperatorName item.label) = some g ∧
        (resolveOperatorCompletion item u).insertText = some (g ++ " ")) ∨
      ((u = false ∨ unicodeLookup (bareOperatorName item.label) = none) ∧
        (resolveOperatorCompletion item u).insertText =
          some ("\\" ++ bareOperatorName item.label ++ " "))) ∧
    (resolveOperatorCompletion (mkCompletionItem "\\in" .Operator) true).insertText =
      some "∈ " ∧
    (resolveOperatorCompletion (mkCompletionItem "\\in" .Operator) false).insertText =
      some "\\in " ∧
    (resolveOperatorCompletion (mkCompletionItem "\\s" .Operator) true).insertText =
      some "\\s " ∧
    (resolveOperatorCompletion (mkCompletionItem "\\s" .Operator) false).insertText =
      some "\\s " := by
  refine ⟨?_, by decide, by decide, by decide, by decide⟩
  intro item u
  cases u
  · exact Or.inr ⟨Or.inl rfl, by simp [resolveOperatorCompletion]⟩
  · cases hb : unicodeLookup (bareOperatorName item.label) with
    | none => exact Or.inr ⟨Or.inr rfl, by simp [resolveOperatorCompletion, hb]⟩
    | some g => exact Or.inl ⟨rfl, g, rfl, by simp [resolveOperatorCompletion, hb]⟩

/-- C4: a prefix starting with EXTENDS yields exactly the standard-module
list, one Module-kind item per standard module, as a complete result;
the rule is terminal so nothing else is ever included. -/
theorem C4_extends_std_modules (s : String) (pos : Position) (pc : Bool)
    (symbols : List SymbolRecord)
    (h : "EXTENDS".data.isPrefixOf s.data = true) :
    provideCompletionItems s pos pc symbols =
      some ⟨TLA_STD_MODULE_ITEMS, false⟩ ∧
    TLA_STD_MODULE_ITEMS =
      TLA_STD_MODULES.map (fun m => mkCompletionItem m .Module) ∧
    ∀ it ∈ TLA_STD_MODULE_ITEMS, it.kind = CompletionItemKind.Module := by
  exact ⟨by simp [provideCompletionItems, h], rfl, by decide⟩

/-- C4 witness: the concrete prefix EXTENDS followed by a space. -/
theorem C4_witness :
    "EXTENDS".data.isPrefixOf "EXTENDS ".data = true ∧
    (provideCompletionItems "EXTENDS " ⟨0, 8⟩ false [] =
        some ⟨TLA_STD_MODULE_ITEMS, false⟩ ∧
      TLA_STD_MODULE_ITEMS =
        TLA_STD_MODULES.map (fun m => mkCompletionItem m .Module) ∧
      ∀ it ∈ TLA_STD_MODULE_ITEMS, it.kind = CompletionItemKind.Module) :=
  ⟨by decide, C4_extends_std_modules "EXTENDS " ⟨0, 8⟩ false [] (by decide)⟩

/-- C5: a prefix starting with CONSTANT or RECURSIVE yields the explicit
empty and complete result, not a missing provider response. -/
theorem C5_constant_empty_complete (s : String) (pos : Position) (pc : Bool)
    (symbols : List SymbolRecord)
    (h : ("CONSTANT".data.isPrefixOf s.data ||
        "RECURSIVE".data.isPrefixOf s.data) = true) :
    provideCompletionItems s pos pc symbols = some ⟨[], false⟩ := by
  have hE : "EXTENDS".data.isPrefixOf s.data = false := by
    cases hE : "EXTENDS".data.isPrefixOf s.data
    · rfl
    · exfalso
      have h2 := head?_of_isPrefixOf hE (by decide)
      rcases Bool.or_eq_true_iff.mp h with hC | hR
      · exact absurd (h2.symm.trans (head?_of_isPrefixOf hC (by decide)))
          (by decide)
      · exact absurd (h2.symm.trans (head?_of_isPrefixOf hR (by decide)))
          (by decide)
  simp [provideCompletionItems, hE, h]

/-- C5 witness: the concrete prefix CONSTANT followed by a declaration. -/
theorem C5_witness :
    ("CONSTANT".data.isPrefixOf "CONSTANT x".data ||
      "RECURSIVE".data.isPrefixOf "CONSTANT x".data) = true ∧
    provideCompletionItems "CONSTANT x" ⟨0, 10⟩ false [] = some ⟨[], false⟩ :=
  ⟨by decide, C5_constant_empty_complete "CONSTANT x" ⟨0, 10⟩ false [] (by decide)⟩

/-- C2 counterexample: on the empty prefix outside PlusCal (which
escalates with starting keywords) the assembled list is not the
spec-ordered list that puts the keyword class first. -/
theorem C2_counterexample :
    provideCompletionItems "" ⟨0, 0⟩ false [] ≠
      some ⟨specOrderedEscalatedItems TLA_STARTING_KEYWORD_ITEMS
        (symbolCompletionItems []), false⟩ := by
  decide

/-- C2 (amended): for every invocation that resolves to a general bucket
with an escalation, the assembled list is ordered with the general
keywords first, then the constants, then the symbol-derived items, and
the escalated keyword class (proof-starting or starting) appended last. -/
theorem C2_escalated_assembly_order (s : String) (pos : Position)
    (symbols : List SymbolRecord)
    (hE : "EXTENDS".data.isPrefixOf s.data = false)
    (hC : "CONSTANT".data.isPrefixOf s.data = false)
    (hR : "RECURSIVE".data.isPrefixOf s.data = false)
    (hOp : isOperatorTest s = false)
    (hesc : isProofStep s = true ∨ (isProofStep s = false ∧ isNewLine s = true)) :
    provideCompletionItems s pos false symbols =
      some ⟨TLA_OTHER_KEYWORD_ITEMS ++ TLA_CONST_ITEMS ++
        symbolCompletionItems symbols ++
        (if isProofStep s then TLA_PROOF_STARTING_KEYWORD_ITEMS
         else TLA_STARTING_KEYWORD_ITEMS), false⟩ := by
  rw [provide_general hE hC hR hOp]
  rcases hesc with hp | ⟨hp, hn⟩
  · simp [generalItems, hp, TLA_INNER_ITEMS, List.append_assoc]
  · simp [generalItems, hp, hn, TLA_INNER_ITEMS, List.append_assoc]

/-- C2 witness: a proof-step prefix with one document symbol. -/
theorem C2_witness :
    "EXTENDS".data.isPrefixOf "<1>. ".data = false ∧
    "CONSTANT".data.isPrefixOf "<1>. ".data = false ∧
    "RECURSIVE".data.isPrefixOf "<1>. ".data = false ∧
    isOperatorTest "<1>. " = false ∧
    (isProofStep "<1>. " = true ∨
      (isProofStep "<1>. " = false ∧ isNewLine "<1>. " = true)) ∧
    provideCompletionItems "<1>. " ⟨0, 5⟩ false [⟨"Foo", .Function⟩] =
      some ⟨TLA_OTHER_KEYWORD_ITEMS ++ TLA_CONST_ITEMS ++
        symbolCompletionItems [⟨"Foo", .Function⟩] ++
        (if isProofStep "<1>. " then TLA_PROOF_STARTING_KEYWORD_ITEMS
         else TLA_STARTING_KEYWORD_ITEMS), false⟩ :=
  ⟨by decide, by decide, by decide, by decide, Or.inl (by decide),
    C2_escalated_assembly_order "<1>. " ⟨0, 5⟩ [⟨"Foo", .Function⟩]
      (by decide) (by decide) (by decide) (by decide) (Or.inl (by decide))⟩

/-- C6: every prefix matching the proof-step pattern, with the cursor
outside a PlusCal block, yields every proof-starting keyword as a
candidate and no starting-keyword item. -/
theorem C6_proof_step_candidates (s : String) (pos : Position)
    (symbols : List SymbolRecord) (h : isProofStep s = true) :
    ∃ L, provideCompletionItems s pos false symbols = some L ∧
      (∀ w ∈ TLA_PROOF_STARTING_KEYWORDS, mkCompletionItem w .Keyword ∈ L.items) ∧
      (∀ it ∈ L.items, it.kind = CompletionItemKind.Keyword →
        it.label ∉ TLA_STARTING_KEYWORDS) := by
  obtain ⟨hE, hC, hR⟩ := isProofStep_no_kw_starts h
  have hOp : isOperatorTest s = false := by
    cases hOp : isOperatorTest s
    · rfl
    · exact absurd (isOperatorTest_backslash hOp) (isProofStep_no_backslash h)
  refine ⟨⟨TLA_INNER_ITEMS ++ symbolCompletionItems symbols ++
      TLA_PROOF_STARTING_KEYWORD_ITEMS, false⟩, ?_, ?_, ?_⟩
  · rw [provide_general hE hC hR hOp]
    simp [generalItems, h]
  · intro w hw
    exact List.mem_append_right _ (List.mem_map.mpr ⟨w, hw, rfl⟩)
  · intro it hit hk
    rcases List.mem_append.mp hit with h1 | h1
    · rcases List.mem_append.mp h1 with h2 | h2
      · exact (by decide :
          ∀ x ∈ TLA_INNER_ITEMS, x.label ∉ TLA_STARTING_KEYWORDS) it h2
      · exact absurd hk (symbol_item_kind it h2)
    · exact (by decide :
        ∀ x ∈ TLA_PROOF_STARTING_KEYWORD_ITEMS,
          x.label ∉ TLA_STARTING_KEYWORDS) it h1

/-- C6 witness: the concrete proof-step prefix with a step number and a
trailing space, with one document symbol. -/
theorem C6_witness :
    isProofStep "<12>.4 " = true ∧
    (∃ L, provideCompletionItems "<12>.4 " ⟨0, 7⟩ false [⟨"Init", .Function⟩] =
        some L ∧
      (∀ w ∈ TLA_PROOF_STARTING_KEYWORDS, mkCompletionItem w .Keyword ∈ L.items) ∧
      (∀ it ∈ L.items, it.kind = CompletionItemKind.Keyword →
        it.label ∉ TLA_STARTING_KEYWORDS)) :=
  ⟨by decide, C6_proof_step_candidates "<12>.4 " ⟨0, 7⟩ [⟨"Init", .Function⟩]
    (by decide)⟩

/-- C7 counterexample: the empty prefix outside PlusCal does not resolve
to the GeneralOnly bucket; the result includes the starting-keyword item
EXTENDS. -/
theorem C7_counterexample :
    provideCompletionItems "" ⟨0, 0⟩ false [] =
      some ⟨TLA_INNER_ITEMS ++ symbolCompletionItems [] ++
        TLA_STARTING_KEYWORD_ITEMS, false⟩ ∧
    mkCompletionItem "EXTENDS" .Keyword ∈ TLA_STARTING_KEYWORD_ITEMS ∧
    "EXTENDS" ∈ TLA_STARTING_KEYWORDS := by
  refine ⟨by decide, by decide, by decide⟩

/-- C7 (amended): prefixes matching none of the rules resolve to the
general bucket with no escalation; the classifier is total, every
invocation answering an explicit complete list; and the empty prefix
outside PlusCal resolves to the general bucket escalated with the
starting keywords (it matches the new-line pattern), not to GeneralOnly. -/
theorem C7_fallback_general (s : String) (pos : Position) (pc : Bool)
    (symbols : List SymbolRecord)
    (hE : "EXTENDS".data.isPrefixOf s.data = false)
    (hC : "CONSTANT".data.isPrefixOf s.data = false)
    (hR : "RECURSIVE".data.isPrefixOf s.data = false)
    (hOp : isOperatorTest s = false)
    (hPs : isProofStep s = false) (hNl : isNewLine s = false) :
    provideCompletionItems s pos pc symbols =
      some ⟨TLA_INNER_ITEMS ++ symbolCompletionItems symbols, false⟩ ∧
    (∀ (s2 : String) (pos2 : Position) (pc2 : Bool)
        (sym2 : List SymbolRecord),
      ∃ L, provideCompletionItems s2 pos2 pc2 sym2 = some L ∧
        L.isIncomplete = false) ∧
    provideCompletionItems "" pos false symbols =
      some ⟨TLA_INNER_ITEMS ++ symbolCompletionItems symbols ++
        TLA_STARTING_KEYWORD_ITEMS, false⟩ := by
  refine ⟨?_, ?_, ?_⟩
  · rw [provide_general hE hC hR hOp]
    cases pc
    · simp [generalItems, hPs, hNl]
    · simp [generalItems]
  · intro s2 pos2 pc2 sym2
    unfold provideCompletionItems
    repeat' split
    all_goals exact ⟨_, rfl, rfl⟩
  · rw [provide_general (by decide) (by decide) (by decide) (by decide)]
    simp [generalItems, (by decide : isProofStep "" = false),
      (by decide : isNewLine "" = true)]

/-- C7 witness: the concrete non-matching prefix is an expression that is
neither a declaration start, an operator tail, a proof step nor a bare
identifier line. -/
theorem C7_witness :
    "EXTENDS".data.isPrefixOf "x == y".data = false ∧
    "CONSTANT".data.isPrefixOf "x == y".data = false ∧
    "RECURSIVE".data.isPrefixOf "x == y".data = false ∧
    isOperatorTest "x == y" = false ∧
    isProofStep "x == y" = false ∧
    isNewLine "x == y" = false ∧
    (provideCompletionItems "x == y" ⟨0, 6⟩ false [] =
        some ⟨TLA_INNER_ITEMS ++ symbolCompletionItems [], false⟩ ∧
      (∀ (s2 : String) (pos2 : Position) (pc2 : Bool)
          (sym2 : List SymbolRecord),
        ∃ L, provideCompletionItems s2 pos2 pc2 sym2 = some L ∧
          L.isIncomplete = false) ∧
      provideCompletionItems "" ⟨0, 6⟩ false [] =
        some ⟨TLA_INNER_ITEMS ++ symbolCompletionItems [] ++
          TLA_STARTING_KEYWORD_ITEMS, false⟩) :=
  ⟨by decide, by decide, by decide, by decide, by decide, by decide,
    C7_fallback_general "x == y" ⟨0, 6⟩ false []
      (by decide) (by decide) (by decide) (by decide) (by decide) (by decide)⟩

/-- C8: for every catalog operator and either preference value, the
resolved insertText exists, is non-empty and ends with exactly one
trailing space. -/
theorem C8_nonempty_single_trailing_space (op : String) (u : Bool)
    (h : op ∈ TLA_OPERATORS) :
    ∃ t, (resolveOperatorCompletion
        (mkCompletionItem ("\\" ++ op) .Operator) u).insertText = some t ∧
      t ≠ "" ∧ endsWithSingleSpace t = true := by
  have hall : ∀ x ∈ TLA_OPERATORS,
      (resolveOperatorCompletion
        (mkCompletionItem ("\\" ++ x) .Operator) u).insertText ≠ none ∧
      (resolveOperatorCompletion
        (mkCompletionItem ("\\" ++ x) .Operator) u).insertText.getD "" ≠ "" ∧
      endsWithSingleSpace ((resolveOperatorCompletion
        (mkCompletionItem ("\\" ++ x) .Operator) u).insertText.getD "") = true := by
    cases u <;> decide
  obtain ⟨h1, h2, h3⟩ := hall op h
  cases hx : (resolveOperatorCompletion
      (mkCompletionItem ("\\" ++ op) .Operator) u).insertText with
  | none => exact absurd hx h1
  | some t =>
      rw [hx] at h2 h3
      exact ⟨t, rfl, by simpa using h2, by simpa using h3⟩

/-- C8 witness: the operator name in with the Unicode preference on. -/
theorem C8_witness :
    "in" ∈ TLA_OPERATORS ∧
    (∃ t, (resolveOperatorCompletion
        (mkCompletionItem ("\\" ++ "in") .Operator) true).insertText = some t ∧
      t ≠ "" ∧ endsWithSingleSpace t = true) :=
  ⟨by decide, C8_nonempty_single_trailing_space "in" true (by decide)⟩

/-- C9: resolving an already-resolved keyword- or operator-kind item a
second time with the same preference yields the same insertText. -/
theorem C9_resolve_idempotent (item : CompletionItem) (u : Bool)
    (h : item.kind = CompletionItemKind.Keyword ∨
      item.kind = CompletionItemKind.Operator) :
    (resolveCompletionItem (resolveCompletionItem item u) u).insertText =
      (resolveCompletionItem item u).insertText := by
  obtain ⟨label, kind, itext, rg⟩ := item
  rcases h with h | h <;> simp only at h <;> subst h <;>
    simp [resolveCompletionItem, resolveOperatorCompletion, bareOperatorName]

/-- C9 witness: an operator item resolved twice with the preference on. -/
theorem C9_witness :
    ((mkCompletionItem "\\in" .Operator).kind = CompletionItemKind.Keyword ∨
      (mkCompletionItem "\\in" .Operator).kind = CompletionItemKind.Operator) ∧
    (resolveCompletionItem
        (resolveCompletionItem (mkCompletionItem "\\in" .Operator) true)
        true).insertText =
      (resolveCompletionItem (mkCompletionItem "\\in" .Operator) true).insertText :=
  ⟨Or.inr rfl, C9_resolve_idempotent (mkCompletionItem "\\in" .Operator) true
    (Or.inr rfl)⟩

/-- C10: inside a PlusCal block, when no terminal rule fires, the result
is exactly the general keywords, the constants and the document symbols,
with no starting-keyword and no proof-starting-keyword item, whatever the
prefix. -/
theorem C10_pluscal_inner_only (s : String) (pos : Position)
    (symbols : List SymbolRecord)
    (hE : "EXTENDS".data.isPrefixOf s.data = false)
    (hC : "CONSTANT".data.isPrefixOf s.data = false)
    (hR : "RECURSIVE".data.isPrefixOf s.data = false)
    (hOp : isOperatorTest s = false) :
    provideCompletionItems s pos true symbols =
      some ⟨TLA_INNER_ITEMS ++ symbolCompletionItems symbols, false⟩ ∧
    (∀ it ∈ TLA_INNER_ITEMS ++ symbolCompletionItems symbols,
        it.kind = CompletionItemKind.Keyword →
        it.label ∉ TLA_STARTING_KEYWORDS ∧
        it.label ∉ TLA_PROOF_STARTING_KEYWORDS) := by
  refine ⟨?_, ?_⟩
  · rw [provide_general hE hC hR hOp]
    simp [generalItems]
  · intro it hit hk
    rcases List.mem_append.mp hit with h1 | h1
    · exact (by decide : ∀ x ∈ TLA_INNER_ITEMS,
        x.label ∉ TLA_STARTING_KEYWORDS ∧
        x.label ∉ TLA_PROOF_STARTING_KEYWORDS) it h1
    · exact absurd hk (symbol_item_kind it h1)

/-- C10 witness: a proof-step-shaped prefix inside a PlusCal block with
one document symbol. -/
theorem C10_witness :
    "EXTENDS".data.isPrefixOf "<1>. ".data = false ∧
    "CONSTANT".data.isPrefixOf "<1>. ".data = false ∧
    "RECURSIVE".data.isPrefixOf "<1>. ".data = false ∧
    isOperatorTest "<1>. " = false ∧
    (provideCompletionItems "<1>. " ⟨0, 5⟩ true [⟨"pc", .Variable⟩] =
        some ⟨TLA_INNER_ITEMS ++ symbolCompletionItems [⟨"pc", .Variable⟩],
          false⟩ ∧
      (∀ it ∈ TLA_INNER_ITEMS ++ symbolCompletionItems [⟨"pc", .Variable⟩],
          it.kind = CompletionItemKind.Keyword →
          it.label ∉ TLA_STARTING_KEYWORDS ∧
          it.label ∉ TLA_PROOF_STARTING_KEYWORDS)) :=
  ⟨by decide, by decide, by decide, by decide,
    C10_pluscal_inner_only "<1>. " ⟨0, 5⟩ [⟨"pc", .Variable⟩]
      (by decide) (by decide) (by decide) (by decide)⟩

end TlaCompletions
